import Mathlib

/-!
Verification of the kodomo streaming pipeline core against its specification.

The definitions below are a shallow embedding of the Rust sources:
  crates/kd-network/src/packet.rs         (wire packet codec)
  crates/kd-network/src/udp_transport.rs  (fragmentation, chunking, reassembly, stats)
  crates/kd-core/src/engine.rs            (pipeline supervisor lifecycle)
  crates/kd-server/src/config.rs          (configuration validation)
  crates/kd-server/src/server.rs          (capture worker queue interaction)

Bytes are modelled as `Nat` values (each `< 256` where the source writes them),
byte buffers as `List Nat`, machine integers as `Nat` with explicit `% 2^w`
where the source wraps.
-/

namespace Kodomo

/-- `slice data a b` models the Rust subslice `data[a..b]` (`Bytes::slice(a..b)`). -/
def slice (data : List Nat) (a b : Nat) : List Nat :=
  (data.drop a).take (b - a)

/-! ### NAL boundary scan (udp_transport.rs, `find_nal_boundaries`) -/

/-- Loop body of `UdpTransport::find_nal_boundaries`: scan from index `i` looking
for start codes `00 00 00 01` (advance 4) or `00 00 01` (advance 3) while
`i + 3 < data.len()`.  `fuel` bounds the recursion; each step advances `i`
by at least one, so `fuel = data.length` is always enough. -/
def findNalLoop (data : List Nat) : Nat → Nat → List Nat
  | 0, _ => []
  | fuel + 1, i =>
    if i + 3 < data.length then
      if data.getD i 0 = 0 ∧ data.getD (i + 1) 0 = 0 then
        if data.getD (i + 2) 0 = 0 ∧ i + 3 < data.length ∧ data.getD (i + 3) 0 = 1 then
          i :: findNalLoop data fuel (i + 4)
        else if data.getD (i + 2) 0 = 1 then
          i :: findNalLoop data fuel (i + 3)
        else
          findNalLoop data fuel (i + 1)
      else
        findNalLoop data fuel (i + 1)
    else []

/-- `UdpTransport::find_nal_boundaries`. -/
def find_nal_boundaries (data : List Nat) : List Nat :=
  findNalLoop data data.length 0

/-! ### NAL-aware chunking (udp_transport.rs, `create_nal_aware_chunks`)

The chunker is embedded as a function producing the `(start, stop)` ranges of
the slices the source pushes; the byte-level chunks are those ranges mapped
through `slice`.  This records exactly the `data.slice(a..b)` calls of the
source. -/

/-- The inner `while nal_offset < nal_end` loop splitting an oversized NAL unit
into fixed-size ranges (`chunk_end = (nal_offset + max_chunk_size).min(nal_end)`),
and also the shape of the fallback `data.chunks(max_chunk_size)`.
`fuel = e - off` suffices whenever `max_chunk_size > 0`. -/
def splitFixedR (maxChunkSize : Nat) : Nat → Nat → Nat → List (Nat × Nat)
  | 0, _, _ => []
  | fuel + 1, off, e =>
    if off < e then
      (off, min (off + maxChunkSize) e) :: splitFixedR maxChunkSize fuel (min (off + maxChunkSize) e) e
    else []

/-- The `for i in 0..boundaries.len()` loop of `create_nal_aware_chunks`,
carrying `current_chunk_start` (`ccs`); `nal_end` is the next boundary, or
`data.len()` for the last one.  After the loop the code flushes
`current_chunk_start..` if anything remains. -/
def chunkLoopR (len maxChunkSize : Nat) : List Nat → Nat → List (Nat × Nat)
  | [], ccs => if ccs < len then [(ccs, len)] else []
  | b :: rest, ccs =>
    let nalEnd := rest.headD len
    if nalEnd - b > maxChunkSize then
      (if ccs < b then [(ccs, b)] else []) ++
        splitFixedR maxChunkSize (nalEnd - b) b nalEnd ++
        chunkLoopR len maxChunkSize rest nalEnd
    else if ccs + (nalEnd - ccs) > maxChunkSize then
      (ccs, b) :: chunkLoopR len maxChunkSize rest b
    else
      chunkLoopR len maxChunkSize rest ccs

/-- `UdpTransport::create_nal_aware_chunks`, as the ranges of the emitted chunks. -/
def create_nal_aware_chunksR (data : List Nat) (maxChunkSize : Nat) : List (Nat × Nat) :=
  let boundaries := find_nal_boundaries data
  if boundaries.isEmpty then
    splitFixedR maxChunkSize data.length 0 data.length
  else
    chunkLoopR data.length maxChunkSize boundaries 0

/-- `UdpTransport::create_nal_aware_chunks`: the emitted chunks as byte lists. -/
def create_nal_aware_chunks (data : List Nat) (maxChunkSize : Nat) : List (List Nat) :=
  (create_nal_aware_chunksR data maxChunkSize).map (fun r => slice data r.1 r.2)

/-! ### Chunker completeness lemmas -/

lemma slice_of_le (data : List Nat) {a b : Nat} (h : b ≤ a) : slice data a b = [] := by
  simp [slice, Nat.sub_eq_zero_of_le h]

lemma slice_zero_length (data : List Nat) : slice data 0 data.length = data := by
  simp [slice]

lemma slice_append (data : List Nat) {a b c : Nat} (hab : a ≤ b) (hbc : b ≤ c) :
    slice data a b ++ slice data b c = slice data a c := by
  have hdrop : data.drop b = (data.drop a).drop (b - a) := by
    rw [List.drop_drop]
    congr 1
    omega
  rw [slice, slice, slice, hdrop, ← List.take_add]
  congr 1
  omega

lemma splitFixedR_eq_nil (maxChunkSize : Nat) (fuel : Nat) {off e : Nat} (h : e ≤ off) :
    splitFixedR maxChunkSize fuel off e = [] := by
  cases fuel with
  | zero => rfl
  | succ n => simp [splitFixedR, Nat.not_lt.mpr h]

lemma splitFixedR_join (data : List Nat) {maxChunkSize : Nat} (hm : 0 < maxChunkSize) :
    ∀ fuel off e, e - off ≤ fuel →
      ((splitFixedR maxChunkSize fuel off e).map (fun r => slice data r.1 r.2)).flatten =
        slice data off e := by
  intro fuel
  induction fuel with
  | zero =>
    intro off e hfe
    have : e ≤ off := by omega
    simp [splitFixedR, slice_of_le data this]
  | succ n ih =>
    intro off e hfe
    by_cases h : off < e
    · have hoc : off ≤ min (off + maxChunkSize) e := by omega
      have hce : min (off + maxChunkSize) e ≤ e := by omega
      have hfuel : e - min (off + maxChunkSize) e ≤ n := by omega
      simp only [splitFixedR, if_pos h, List.map_cons, List.flatten_cons]
      rw [ih _ e hfuel, slice_append data hoc hce]
    · simp [splitFixedR, h, slice_of_le data (Nat.not_lt.mp h)]

/-- Invariant carried through the chunk loop: `ccs`, the boundary list and the
payload length are weakly increasing. -/
def ChainOK (len : Nat) : Nat → List Nat → Prop
  | ccs, [] => ccs ≤ len
  | ccs, b :: rest => ccs ≤ b ∧ ChainOK len b rest

lemma ChainOK.le {len : Nat} : ∀ {bs ccs}, ChainOK len ccs bs → ccs ≤ len := by
  intro bs
  induction bs with
  | nil => intro ccs h; exact h
  | cons b rest ih =>
    intro ccs h
    exact le_trans h.1 (ih h.2)

lemma ChainOK.mono {len : Nat} {bs : List Nat} {c c' : Nat} (h : ChainOK len c bs)
    (hle : c' ≤ c) : ChainOK len c' bs := by
  cases bs with
  | nil => exact le_trans hle h
  | cons b rest => exact ⟨le_trans hle h.1, h.2⟩

lemma chunkLoopR_join (data : List Nat) {maxChunkSize : Nat} (hm : 0 < maxChunkSize) :
    ∀ bs ccs, ChainOK data.length ccs bs →
      ((chunkLoopR data.length maxChunkSize bs ccs).map (fun r => slice data r.1 r.2)).flatten =
        slice data ccs data.length := by
  intro bs
  induction bs with
  | nil =>
    intro ccs hok
    by_cases h : ccs < data.length
    · simp [chunkLoopR, h]
    · simp [chunkLoopR, h, slice_of_le data (Nat.not_lt.mp h)]
  | cons b rest ih =>
    intro ccs hok
    obtain ⟨hcb, hbr⟩ := hok
    have hblen : b ≤ data.length := hbr.le
    have hbn : b ≤ rest.headD data.length := by
      cases rest with
      | nil => exact hblen
      | cons b2 r2 => exact hbr.1
    have hnlen : rest.headD data.length ≤ data.length := by
      cases rest with
      | nil => simp
      | cons b2 r2 => simpa using hbr.2.le
    have hokNalEnd : ChainOK data.length (rest.headD data.length) rest := by
      cases rest with
      | nil => simp [ChainOK]
      | cons b2 r2 => exact ⟨le_refl _, hbr.2⟩
    simp only [chunkLoopR]
    by_cases h1 : rest.headD data.length - b > maxChunkSize
    · simp only [if_pos h1, List.map_append, List.flatten_append]
      rw [ih _ hokNalEnd, splitFixedR_join data hm _ _ _ (le_refl _)]
      have hflush :
          ((if ccs < b then [(ccs, b)] else []).map (fun r => slice data r.1 r.2)).flatten =
            slice data ccs b := by
        by_cases h2 : ccs < b
        · simp [h2]
        · simp [h2, slice_of_le data (Nat.not_lt.mp h2)]
      rw [hflush, slice_append data hcb hbn, slice_append data (le_trans hcb hbn) hnlen]
    · simp only [if_neg h1]
      by_cases h2 : ccs + (rest.headD data.length - ccs) > maxChunkSize
      · have hokb : ChainOK data.length b rest := hbr
        simp only [if_pos h2, List.map_cons, List.flatten_cons]
        rw [ih _ hokb, slice_append data hcb hblen]
      · have hokc : ChainOK data.length ccs rest := hbr.mono hcb
        simp only [if_neg h2]
        exact ih _ hokc

lemma findNalLoop_chainOK (data : List Nat) :
    ∀ fuel i, i ≤ data.length → ChainOK data.length i (findNalLoop data fuel i) := by
  intro fuel
  induction fuel with
  | zero => intro i hi; exact hi
  | succ n ih =>
    intro i hi
    simp only [findNalLoop]
    by_cases hg : i + 3 < data.length
    · simp only [if_pos hg]
      by_cases h00 : data.getD i 0 = 0 ∧ data.getD (i + 1) 0 = 0
      · simp only [if_pos h00]
        by_cases h4 : data.getD (i + 2) 0 = 0 ∧ i + 3 < data.length ∧ data.getD (i + 3) 0 = 1
        · simp only [if_pos h4]
          exact ⟨le_refl _, (ih (i + 4) (by omega)).mono (by omega)⟩
        · simp only [if_neg h4]
          by_cases h3 : data.getD (i + 2) 0 = 1
          · simp only [if_pos h3]
            exact ⟨le_refl _, (ih (i + 3) (by omega)).mono (by omega)⟩
          · simp only [if_neg h3]
            exact (ih (i + 1) (by omega)).mono (by omega)
      · simp only [if_neg h00]
        exact (ih (i + 1) (by omega)).mono (by omega)
    · simp only [if_neg hg]
      exact hi

lemma findNalLoop_mem_lt (data : List Nat) :
    ∀ fuel i, ∀ b ∈ findNalLoop data fuel i, b + 3 < data.length := by
  intro fuel
  induction fuel with
  | zero => intro i b hb; simp [findNalLoop] at hb
  | succ n ih =>
    intro i b hb
    simp only [findNalLoop] at hb
    by_cases hg : i + 3 < data.length
    · simp only [if_pos hg] at hb
      by_cases h00 : data.getD i 0 = 0 ∧ data.getD (i + 1) 0 = 0
      · simp only [if_pos h00] at hb
        by_cases h4 : data.getD (i + 2) 0 = 0 ∧ i + 3 < data.length ∧ data.getD (i + 3) 0 = 1
        · simp only [if_pos h4, List.mem_cons] at hb
          rcases hb with rfl | hb
          · exact hg
          · exact ih _ _ hb
        · simp only [if_neg h4] at hb
          by_cases h3 : data.getD (i + 2) 0 = 1
          · simp only [if_pos h3, List.mem_cons] at hb
            rcases hb with rfl | hb
            · exact hg
            · exact ih _ _ hb
          · simp only [if_neg h3] at hb
            exact ih _ _ hb
      · simp only [if_neg h00] at hb
        exact ih _ _ hb
    · simp only [if_neg hg] at hb
      simp at hb

/-! ### Chunk start-offset lemmas -/

lemma splitFixedR_mem_start {maxChunkSize : Nat} :
    ∀ fuel off e, ∀ r ∈ splitFixedR maxChunkSize fuel off e, ∃ k, r.1 = off + k * maxChunkSize := by
  intro fuel
  induction fuel with
  | zero => intro off e r hr; simp [splitFixedR] at hr
  | succ n ih =>
    intro off e r hr
    simp only [splitFixedR] at hr
    by_cases h : off < e
    · simp only [if_pos h, List.mem_cons] at hr
      rcases hr with rfl | hr
      · exact ⟨0, by simp⟩
      · by_cases hmin : off + maxChunkSize ≤ e
        · rw [min_eq_left hmin] at hr
          obtain ⟨k, hk⟩ := ih _ _ _ hr
          exact ⟨k + 1, by rw [hk]; ring⟩
        · rw [min_eq_right (by omega)] at hr
          rw [splitFixedR_eq_nil maxChunkSize n (le_refl e)] at hr
          simp at hr
    · simp [if_neg h] at hr

lemma chunkLoopR_starts (len maxChunkSize : Nat) (S : List Nat) :
    ∀ bs ccs, (∀ b ∈ bs, b ∈ S ∧ b < len) → ChainOK len ccs bs →
      (ccs ∈ (0 :: S) ∨ ccs = len) →
      ∀ r ∈ chunkLoopR len maxChunkSize bs ccs,
        ∃ b ∈ (0 :: S), ∃ k, r.1 = b + k * maxChunkSize := by
  intro bs
  induction bs with
  | nil =>
    intro ccs _ _ hccs r hr
    simp only [chunkLoopR] at hr
    by_cases h : ccs < len
    · simp only [if_pos h, List.mem_singleton] at hr
      subst hr
      rcases hccs with hccs | hccs
      · exact ⟨ccs, hccs, 0, by simp⟩
      · omega
    · simp [if_neg h] at hr
  | cons b rest ih =>
    intro ccs hmem hok hccs r hr
    obtain ⟨hbS, hblen⟩ := hmem b (List.mem_cons_self b rest)
    obtain ⟨hcb, hbr⟩ := hok
    have hccs' : ccs ∈ (0 :: S) := by
      rcases hccs with hccs | hccs
      · exact hccs
      · omega
    have hmemRest : ∀ b' ∈ rest, b' ∈ S ∧ b' < len := fun b' hb' => hmem b' (List.mem_cons_of_mem b hb')
    have hnalEnd : rest.headD len ∈ (0 :: S) ∨ rest.headD len = len := by
      cases rest with
      | nil => exact Or.inr rfl
      | cons b2 r2 =>
        exact Or.inl (List.mem_cons_of_mem 0 (hmemRest b2 (List.mem_cons_self b2 r2)).1)
    have hokNalEnd : ChainOK len (rest.headD len) rest := by
      cases rest with
      | nil => simp [ChainOK]
      | cons b2 r2 => exact ⟨le_refl _, hbr.2⟩
    simp only [chunkLoopR] at hr
    by_cases h1 : rest.headD len - b > maxChunkSize
    · simp only [if_pos h1, List.mem_append] at hr
      rcases hr with (hr | hr) | hr
      · by_cases h2 : ccs < b
        · simp only [if_pos h2, List.mem_singleton] at hr
          subst hr
          exact ⟨ccs, hccs', 0, by simp⟩
        · simp [if_neg h2] at hr
      · obtain ⟨k, hk⟩ := splitFixedR_mem_start _ _ _ r hr
        exact ⟨b, List.mem_cons_of_mem 0 hbS, k, hk⟩
      · exact ih _ hmemRest hokNalEnd hnalEnd r hr
    · simp only [if_neg h1] at hr
      by_cases h2 : ccs + (rest.headD len - ccs) > maxChunkSize
      · simp only [if_pos h2, List.mem_cons] at hr
        rcases hr with rfl | hr
        · exact ⟨ccs, hccs', 0, by simp⟩
        · exact ih _ hmemRest hbr (Or.inl (List.mem_cons_of_mem 0 hbS)) r hr
      · simp only [if_neg h2] at hr
        exact ih _ hmemRest (hbr.mono hcb) (Or.inl hccs') r hr

/-! ### Wire packet codec (packet.rs) -/

/-- `PacketType` (packet.rs). -/
inductive PacketType where
  | Video
  | Audio
  | Input
  | Control
  deriving DecidableEq, Repr

/-- The `repr(u8)` discriminant of a `PacketType`. -/
def PacketType.toByte : PacketType → Nat
  | .Video => 0x01
  | .Audio => 0x02
  | .Input => 0x03
  | .Control => 0x04

/-- The discriminant match of `Packet::from_bytes`. -/
def PacketType.ofByte : Nat → Option PacketType
  | 0x01 => some .Video
  | 0x02 => some .Audio
  | 0x03 => some .Input
  | 0x04 => some .Control
  | _ => none

def FLAG_KEYFRAME : Nat := 0x01
def FLAG_FRAGMENT : Nat := 0x02
def FLAG_LAST_FRAGMENT : Nat := 0x04

/-- `Packet` (packet.rs): `sequence : u32`, `timestamp : u64`, `flags : u8`,
payload as raw bytes. -/
structure Packet where
  packet_type : PacketType
  sequence : Nat
  timestamp : Nat
  flags : Nat
  payload : List Nat
  deriving DecidableEq, Repr

/-- `Packet::new`: flags start at 0; the timestamp comes from the system clock,
passed here as the explicit argument `ts`. -/
def Packet.mkNew (packet_type : PacketType) (sequence : Nat) (ts : Nat)
    (payload : List Nat) : Packet :=
  { packet_type := packet_type, sequence := sequence, timestamp := ts, flags := 0,
    payload := payload }

/-- `Packet::with_flags`. -/
def Packet.with_flags (p : Packet) (flags : Nat) : Packet :=
  { p with flags := flags }

/-- Big-endian bytes of a `u32` (`put_u32`). -/
def u32be (n : Nat) : List Nat :=
  [n / 2 ^ 24 % 256, n / 2 ^ 16 % 256, n / 2 ^ 8 % 256, n % 256]

/-- Big-endian bytes of a `u64` (`put_u64`). -/
def u64be (n : Nat) : List Nat :=
  [n / 2 ^ 56 % 256, n / 2 ^ 48 % 256, n / 2 ^ 40 % 256, n / 2 ^ 32 % 256,
   n / 2 ^ 24 % 256, n / 2 ^ 16 % 256, n / 2 ^ 8 % 256, n % 256]

/-- `Packet::to_bytes`:
`[type:1][seq:4][timestamp:8][flags:1][payload_len:4][payload:N]`.
The `payload.len() as u32` cast truncates modulo `2^32`; `put_u8` of the
flags truncates modulo `2^8`. -/
def Packet.to_bytes (p : Packet) : List Nat :=
  p.packet_type.toByte :: (u32be (p.sequence % 2 ^ 32) ++ u64be (p.timestamp % 2 ^ 64) ++
    (p.flags % 256 :: (u32be (p.payload.length % 2 ^ 32) ++ p.payload)))

/-- `Packet::from_bytes`.  The source first rejects inputs shorter than the
18 header bytes, then consumes from the `Bytes` cursor: `get_u8` (type),
`get_u32` (sequence), `get_u64` (timestamp), `get_u8` (flags), `get_u32`
(payload length); the 18-deep pattern is exactly those sequential reads.
`data.len() < payload_len` then compares the bytes remaining after the
header, and `split_to` takes exactly `payload_len` of them, leaving any
trailing bytes unread. -/
def Packet.from_bytes : List Nat → Except String Packet
  | b0 :: s1 :: s2 :: s3 :: s4 :: t1 :: t2 :: t3 :: t4 :: t5 :: t6 :: t7 :: t8 ::
      fl :: l1 :: l2 :: l3 :: l4 :: rest =>
    match PacketType.ofByte b0 with
    | none => .error "Invalid packet type"
    | some t =>
      let payload_len := l1 * 2 ^ 24 + l2 * 2 ^ 16 + l3 * 2 ^ 8 + l4
      if rest.length < payload_len then .error "Incomplete payload"
      else
        .ok { packet_type := t,
              sequence := s1 * 2 ^ 24 + s2 * 2 ^ 16 + s3 * 2 ^ 8 + s4,
              timestamp := t1 * 2 ^ 56 + t2 * 2 ^ 48 + t3 * 2 ^ 40 + t4 * 2 ^ 32 +
                t5 * 2 ^ 24 + t6 * 2 ^ 16 + t7 * 2 ^ 8 + t8,
              flags := fl, payload := rest.take payload_len }
  | _ => .error "Packet too short"

/-! ### Fragment reassembly (udp_transport.rs, `FragmentBuffer`) -/

/-- `FragmentBuffer` (udp_transport.rs). -/
structure FragmentBuffer where
  fragments : List (List Nat)
  expected_sequence : Option Nat
  deriving DecidableEq, Repr

/-- `FragmentBuffer::new`. -/
def FragmentBuffer.mkNew : FragmentBuffer :=
  { fragments := [], expected_sequence := none }

/-- `FragmentBuffer::add_fragment`, returning the updated buffer together with
the reassembled frame when one completes.  `wrapping_add(1)` on the `u32`
sequence is `(· + 1) % 2^32`. -/
def FragmentBuffer.add_fragment (buf : FragmentBuffer) (packet : Packet) :
    FragmentBuffer × Option (List Nat) :=
  if packet.flags &&& FLAG_FRAGMENT ≠ 0 then
    let buf1 :=
      if buf.expected_sequence = none then
        { fragments := [], expected_sequence := some packet.sequence }
      else buf
    if buf1.expected_sequence = some packet.sequence then
      let fragments2 := buf1.fragments ++ [packet.payload]
      if packet.flags &&& FLAG_LAST_FRAGMENT ≠ 0 then
        ({ fragments := [], expected_sequence := none }, some fragments2.flatten)
      else
        ({ fragments := fragments2, expected_sequence := some ((packet.sequence + 1) % 2 ^ 32) },
          none)
    else
      ({ fragments := [], expected_sequence := none }, none)
  else
    (buf, some packet.payload)

/-- Feed a list of packets through `add_fragment` in order, collecting every
yielded frame (the receive loop of `UdpTransport::recv` calls `add_fragment`
once per received packet). -/
def FragmentBuffer.run (buf : FragmentBuffer) : List Packet → FragmentBuffer × List (List Nat)
  | [] => (buf, [])
  | p :: rest =>
    let step := buf.add_fragment p
    let next := step.1.run rest
    (next.1, match step.2 with
             | some frame => frame :: next.2
             | none => next.2)

/-! ### UDP send path (udp_transport.rs, `send` / `send_fragmented_nal_aware`) -/

/-- The fragment emission loop of `send_fragmented_nal_aware`: each chunk
becomes a `Packet` with `FLAG_FRAGMENT` (plus `FLAG_LAST_FRAGMENT` on the last
index), consuming consecutive sequence numbers via `wrapping_add(1)`. -/
def sendFragmentedLoop (ts total : Nat) : List (List Nat) → Nat → Nat → List Packet
  | [], _, _ => []
  | c :: cs, seq, idx =>
    let flags := if idx = total - 1 then FLAG_FRAGMENT ||| FLAG_LAST_FRAGMENT else FLAG_FRAGMENT
    (Packet.mkNew .Video seq ts c).with_flags flags ::
      sendFragmentedLoop ts total cs ((seq + 1) % 2 ^ 32) (idx + 1)

/-- `UdpTransport::send`: the list of wire packets emitted for one payload.
`max_payload_size = max_packet_size.saturating_sub(50)`; a payload that fits
goes out as one `Packet::new` (flags 0), otherwise it is chunked and sent
fragmented. -/
def udpSendPackets (maxPacketSize seq ts : Nat) (data : List Nat) : List Packet :=
  let maxPayloadSize := maxPacketSize - 50
  if data.length ≤ maxPayloadSize then
    [Packet.mkNew .Video seq ts data]
  else
    let chunks := create_nal_aware_chunks data maxPayloadSize
    sendFragmentedLoop ts chunks.length chunks seq 0

/-! ### Network stats (lib.rs `NetworkStats`, udp_transport.rs `get_stats`) -/

/-- The integer counters of `NetworkStats` (lib.rs).  The two `f64` gauges
`rtt_ms` and `jitter_ms` are omitted from the embedding; every counter the
spec names is here. -/
structure NetworkStats where
  packets_sent : Nat
  packets_received : Nat
  bytes_sent : Nat
  bytes_received : Nat
  packets_lost : Nat
  deriving DecidableEq, Repr

/-- `NetworkStats::default()`: all counters zero. -/
def NetworkStats.default : NetworkStats :=
  { packets_sent := 0, packets_received := 0, bytes_sent := 0, bytes_received := 0,
    packets_lost := 0 }

/-- The pieces of `UdpTransport` state the stats claims depend on: the
internal `stats` accumulator, the sender sequence number, and the reassembly
buffer. -/
structure UdpTransportState where
  stats : NetworkStats
  sequence : Nat
  fragment_buffer : FragmentBuffer

/-- `UdpTransport::get_stats`: the source returns `NetworkStats::default()`,
ignoring the transport state entirely. -/
def UdpTransportState.get_stats (_t : UdpTransportState) : NetworkStats :=
  NetworkStats.default

/-- The stats update performed inside `UdpTransport::send` for each wire
packet (`packets_sent += 1; bytes_sent += wire_data.len()`). -/
def sendStatsUpdate (s : NetworkStats) (wireLen : Nat) : NetworkStats :=
  { s with packets_sent := s.packets_sent + 1, bytes_sent := s.bytes_sent + wireLen }

/-- The stats update performed inside `UdpTransport::recv`
(`packets_received += 1; bytes_received += len`). -/
def recvStatsUpdate (s : NetworkStats) (len : Nat) : NetworkStats :=
  { s with packets_received := s.packets_received + 1,
           bytes_received := s.bytes_received + len }

/-! ### Pipeline supervisor lifecycle (engine.rs, `StreamingEngine`) -/

/-- `StreamError` variants reachable from `start`/`stop` (error.rs). -/
inductive StreamError where
  | AlreadyRunning
  | NotRunning
  | Config (msg : String)
  deriving DecidableEq, Repr

/-- The `StreamingEngine` state visible to the lifecycle claims: the `running`
flag and whether the two receiver halves are still present (`Option::take` on
`frame_rx` / `encoded_rx` removes them permanently). -/
structure EngineState where
  running : Bool
  frameRxPresent : Bool
  encodedRxPresent : Bool
  deriving DecidableEq, Repr

/-- `StreamingEngine::new`: not running, both receivers present. -/
def engineNew : EngineState :=
  { running := false, frameRxPresent := true, encodedRxPresent := true }

/-- `StreamingEngine::start`.  The source sets `running := true`, then runs
`start_capture_loop` (always `Ok`), `start_encoding_loop` (fails with
`StreamError::Config` when `frame_rx` was already taken) and
`start_network_loop` (likewise for `encoded_rx`); `?`-propagation returns the
first error, with the mutations made so far kept. -/
def engineStart (s : EngineState) : EngineState × Option StreamError :=
  if s.running then (s, some .AlreadyRunning)
  else
    let s1 := { s with running := true }
    if s1.frameRxPresent then
      let s2 := { s1 with frameRxPresent := false }
      if s2.encodedRxPresent then
        ({ s2 with encodedRxPresent := false }, none)
      else (s2, some (.Config "Encoded receiver already taken"))
    else (s1, some (.Config "Frame receiver already taken"))

/-- `StreamingEngine::stop`: `NotRunning` when not running, otherwise
broadcast shutdown and clear `running`. -/
def engineStop (s : EngineState) : EngineState × Option StreamError :=
  if s.running then ({ s with running := false }, none)
  else (s, some .NotRunning)

/-! ### Configuration validation (kd-server config.rs, `Config::validate`) -/

/-- The `Config` fields `Config::validate` reads. -/
structure ServerConfig where
  width : Nat
  height : Nat
  fps : Nat
  bitrate_kbps : Nat
  port : Nat
  deriving DecidableEq, Repr

/-- `Config::validate`. -/
def ServerConfig.validate (c : ServerConfig) : Except String Unit :=
  if c.width = 0 ∨ c.height = 0 then .error "Invalid video resolution"
  else if c.fps = 0 ∨ c.fps > 240 then .error "Invalid FPS (must be 1-240)"
  else if c.bitrate_kbps < 1000 ∨ c.bitrate_kbps > 100000 then
    .error "Invalid bitrate (must be 1000-100000 kbps)"
  else if c.port = 0 then .error "Invalid port"
  else .ok ()

/-! ### Capture worker queue interaction (server.rs, `start_capture_loop`) -/

/-- Q1 capacity (`FRAME_CHANNEL_SIZE` in server.rs). -/
def FRAME_CHANNEL_SIZE : Nat := 8

/-- A bounded `tokio::sync::mpsc` send: when the queue has a free slot the
value is appended and the send completes; when the queue is full the sender
suspends until the consumer frees a slot — modelled as `none` (no immediate
state change, the value is neither enqueued nor discarded). -/
def boundedSend (cap : Nat) (q : List (List Nat)) (x : List Nat) : Option (List (List Nat)) :=
  if q.length < cap then some (q ++ [x]) else none

/-- The capture-loop counters the claims mention. -/
structure CaptureMetrics where
  frames_captured : Nat
  frames_dropped : Nat
  deriving DecidableEq, Repr

/-- The capture loop body on a successful `capture_frame()` (server.rs,
`start_capture_loop`): increment `frames_captured`, then
`frame_tx.send(frame).await` into Q1.  No branch of the loop touches
`frames_dropped`. -/
def captureFrameStep (q : List (List Nat)) (m : CaptureMetrics) (frame : List Nat) :
    Option (List (List Nat)) × CaptureMetrics :=
  (boundedSend FRAME_CHANNEL_SIZE q frame,
    { m with frames_captured := m.frames_captured + 1 })

/-! ## Claim theorems -/

lemma sendFragmentedLoop_flags (ts total : Nat) :
    ∀ cs seq idx, ∀ p ∈ sendFragmentedLoop ts total cs seq idx,
      p.flags = FLAG_FRAGMENT ∨ p.flags = FLAG_FRAGMENT ||| FLAG_LAST_FRAGMENT := by
  intro cs
  induction cs with
  | nil => intro seq idx p hp; simp [sendFragmentedLoop] at hp
  | cons c cs ih =>
    intro seq idx p hp
    simp only [sendFragmentedLoop, List.mem_cons] at hp
    rcases hp with rfl | hp
    · by_cases h : idx = total - 1 <;>
        simp [h, Packet.mkNew, Packet.with_flags]
    · exact ih _ _ p hp

/-- Claim C1, counterexample.  With `max_packet_size = 60` and a 20-byte
payload (no start codes), the payload satisfies the claim's bound
`len ≤ max_packet_size − 18`, yet `UdpTransport::send` fragments it: the
actual cutoff in the source is `max_packet_size.saturating_sub(50)`, and
every emitted packet carries `FLAG_FRAGMENT`. -/
theorem C1_claim_counterexample :
    (List.replicate 20 170).length ≤ 60 - 18 ∧
      (udpSendPackets 60 0 0 (List.replicate 20 170)).length = 2 ∧
      ∀ p ∈ udpSendPackets 60 0 0 (List.replicate 20 170), p.flags &&& FLAG_FRAGMENT ≠ 0 := by
  decide

/-- Claim C1, amended: on the send path a payload goes out as a single
unfragmented wire packet (a one-element packet list whose packet has
flags = 0; `KEYFRAME` is never set on this path) if and only if its length is
at most `max_packet_size.saturating_sub(50)`; otherwise it is fragmented. -/
theorem C1_single_packet_iff (maxPacketSize seq ts : Nat) (data : List Nat) :
    (∃ p, udpSendPackets maxPacketSize seq ts data = [p] ∧ p.flags = 0) ↔
      data.length ≤ maxPacketSize - 50 := by
  constructor
  · intro ⟨p, hp, hflags⟩
    by_contra h
    rw [udpSendPackets] at hp
    simp only [if_neg h] at hp
    have hmem : p ∈ sendFragmentedLoop ts (create_nal_aware_chunks data (maxPacketSize - 50)).length
        (create_nal_aware_chunks data (maxPacketSize - 50)) seq 0 := by
      rw [hp]; exact List.mem_singleton_self p
    rcases sendFragmentedLoop_flags _ _ _ _ _ p hmem with hf | hf <;>
      rw [hflags] at hf <;> simp [FLAG_FRAGMENT, FLAG_LAST_FRAGMENT] at hf
  · intro h
    refine ⟨Packet.mkNew .Video seq ts data, ?_, rfl⟩
    rw [udpSendPackets]
    simp [h]

/-- Claim C4, counterexample.  A packet without `FLAG_FRAGMENT` arriving while
a chain is in progress yields its payload but leaves the chain exactly as it
was: the fragments are not emptied and the expected sequence is not reset. -/
theorem C4_claim_counterexample :
    (FragmentBuffer.add_fragment ⟨[[1]], some 5⟩ ⟨.Video, 9, 0, 0, [7]⟩).2 = some [7] ∧
      (FragmentBuffer.add_fragment ⟨[[1]], some 5⟩ ⟨.Video, 9, 0, 0, [7]⟩).1.fragments ≠ [] ∧
      (FragmentBuffer.add_fragment ⟨[[1]], some 5⟩ ⟨.Video, 9, 0, 0, [7]⟩).1.expected_sequence ≠
        none := by
  decide

/-- Claim C4, amended: when the reassembly buffer receives a packet without
the `FRAGMENT` flag it yields that packet's payload as one complete frame and
leaves the buffer state (fragments and expected sequence) unchanged. -/
theorem C4_passthrough_keeps_chain (buf : FragmentBuffer) (p : Packet)
    (h : p.flags &&& FLAG_FRAGMENT = 0) :
    buf.add_fragment p = (buf, some p.payload) := by
  simp [FragmentBuffer.add_fragment, h]

/-- Witness for `C4_passthrough_keeps_chain` at a concrete buffer and packet. -/
theorem C4_passthrough_keeps_chain_witness :
    (5 : Nat) &&& FLAG_FRAGMENT = 0 ∧
      FragmentBuffer.add_fragment ⟨[[2, 3]], some 7⟩ ⟨.Video, 9, 0, 5, [8]⟩ =
        (⟨[[2, 3]], some 7⟩, some [8]) :=
  ⟨by decide, C4_passthrough_keeps_chain ⟨[[2, 3]], some 7⟩ ⟨.Video, 9, 0, 5, [8]⟩ (by decide)⟩

/-- Claim C5, counterexample.  `new → start → stop → start`: the final start
fails with `Config "Frame receiver already taken"` instead of succeeding,
because `start_encoding_loop` consumed `frame_rx` via `Option::take` during
the first start and it is never restored. -/
theorem C5_claim_counterexample :
    (engineStart engineNew).2 = none ∧
      (engineStop (engineStart engineNew).1).2 = none ∧
      (engineStart (engineStop (engineStart engineNew).1).1).2 =
        some (StreamError.Config "Frame receiver already taken") := by
  decide

/-- Claim C5, amended: starting from `new`, a second start while running fails
with `AlreadyRunning`, and stop called twice returns success then
`NotRunning`; but a start issued after a completed stop does not succeed — it
fails with a `Config` error because the frame receiver was already taken. -/
theorem C5_lifecycle :
    (engineStart engineNew).2 = none ∧
      (engineStart (engineStart engineNew).1).2 = some StreamError.AlreadyRunning ∧
      (engineStop (engineStart (engineStart engineNew).1).1).2 = none ∧
      (engineStop (engineStop (engineStart (engineStart engineNew).1).1).1).2 =
        some StreamError.NotRunning ∧
      (engineStart
        (engineStop (engineStop (engineStart (engineStart engineNew).1).1).1).1).2 =
        some (StreamError.Config "Frame receiver already taken") := by
  decide

/-- Claim C7: `Config::validate` accepts a configuration exactly when the
width and height are positive, `1 ≤ fps ≤ 240`, `1000 ≤ bitrate_kbps ≤
100000` and the port is positive; it rejects (returns an error) exactly when
at least one of those fails. -/
theorem C7_validate_iff (c : ServerConfig) :
    c.validate = .ok () ↔
      (0 < c.width ∧ 0 < c.height ∧ 1 ≤ c.fps ∧ c.fps ≤ 240 ∧
        1000 ≤ c.bitrate_kbps ∧ c.bitrate_kbps ≤ 100000 ∧ 0 < c.port) := by
  unfold ServerConfig.validate
  split_ifs with h1 h2 h3 h4 <;> simp_all <;> omega

/-- Claim C8, counterexample.  With Q1 full (8 queued frames) the capture
loop body does not drop the new frame and does not increment
`frames_dropped`: the bounded-channel send suspends (`none`) and the dropped
counter stays 0 instead of becoming 1. -/
theorem C8_claim_counterexample :
    (captureFrameStep (List.replicate 8 [0]) ⟨0, 0⟩ [1]).1 = none ∧
      (captureFrameStep (List.replicate 8 [0]) ⟨0, 0⟩ [1]).2.frames_dropped = 0 := by
  decide

/-- Claim C8, amended: when Q1 is full the capture worker's send suspends
awaiting a free slot; the new frame is not dropped, `frames_dropped` is left
untouched (no code path increments it), and `frames_captured` is still
incremented. -/
theorem C8_full_queue_waits (q : List (List Nat)) (m : CaptureMetrics) (f : List Nat)
    (h : FRAME_CHANNEL_SIZE ≤ q.length) :
    (captureFrameStep q m f).1 = none ∧
      (captureFrameStep q m f).2.frames_dropped = m.frames_dropped ∧
      (captureFrameStep q m f).2.frames_captured = m.frames_captured + 1 := by
  refine ⟨?_, rfl, rfl⟩
  simp [captureFrameStep, boundedSend, Nat.not_lt.mpr h]

/-- Witness for `C8_full_queue_waits` on a concrete full queue. -/
theorem C8_full_queue_waits_witness :
    FRAME_CHANNEL_SIZE ≤ (List.replicate 8 ([] : List Nat)).length ∧
      (captureFrameStep (List.replicate 8 []) ⟨3, 0⟩ [1]).1 = none ∧
      (captureFrameStep (List.replicate 8 []) ⟨3, 0⟩ [1]).2.frames_dropped = 0 ∧
      (captureFrameStep (List.replicate 8 []) ⟨3, 0⟩ [1]).2.frames_captured = 4 :=
  ⟨by decide, (C8_full_queue_waits (List.replicate 8 []) ⟨3, 0⟩ [1] (by decide)).1,
    (C8_full_queue_waits (List.replicate 8 []) ⟨3, 0⟩ [1] (by decide)).2.1,
    (C8_full_queue_waits (List.replicate 8 []) ⟨3, 0⟩ [1] (by decide)).2.2⟩

/-- Claim C10: `UdpTransport::get_stats` returns `NetworkStats::default()` —
every counter zero — for every transport state, and the counters the send
path accumulates internally are never visible through it. -/
theorem C10_get_stats_always_zero (t : UdpTransportState) :
    t.get_stats = NetworkStats.default ∧
      t.get_stats.packets_sent = 0 ∧ t.get_stats.packets_received = 0 ∧
      t.get_stats.bytes_sent = 0 ∧ t.get_stats.bytes_received = 0 ∧
      t.get_stats.packets_lost = 0 ∧
      ∀ n, UdpTransportState.get_stats { t with stats := sendStatsUpdate t.stats n } =
        t.get_stats :=
  ⟨rfl, rfl, rfl, rfl, rfl, rfl, fun _ => rfl⟩

/-- Claim C2: for every payload and every positive `max_payload`, the chunks
produced by `create_nal_aware_chunks` (including its fixed-size fallback when
no start codes are found), concatenated in emission order, are exactly the
payload — no byte lost, duplicated or reordered. -/
theorem C2_chunker_concat (data : List Nat) (maxPayload : Nat) (hm : 0 < maxPayload) :
    (create_nal_aware_chunks data maxPayload).flatten = data := by
  unfold create_nal_aware_chunks create_nal_aware_chunksR
  by_cases hb : (find_nal_boundaries data).isEmpty
  · simp only [hb, if_pos]
    rw [splitFixedR_join data hm data.length 0 data.length (by omega), slice_zero_length]
  · have hok : ChainOK data.length 0 (find_nal_boundaries data) :=
      findNalLoop_chainOK data data.length 0 (Nat.zero_le _)
    simp only [hb, if_neg, Bool.false_eq_true, not_false_iff]
    rw [chunkLoopR_join data hm (find_nal_boundaries data) 0 hok, slice_zero_length]

/-- Witness for `C2_chunker_concat` on a three-NAL payload with
`max_payload = 6`. -/
theorem C2_chunker_concat_witness :
    (0 : Nat) < 6 ∧
      (create_nal_aware_chunks [0, 0, 0, 1, 7, 7, 0, 0, 1, 8, 0, 0, 0, 1, 5, 5, 5, 5, 5, 5, 5, 5, 5]
          6).flatten =
        [0, 0, 0, 1, 7, 7, 0, 0, 1, 8, 0, 0, 0, 1, 5, 5, 5, 5, 5, 5, 5, 5, 5] :=
  ⟨by decide,
    C2_chunker_concat [0, 0, 0, 1, 7, 7, 0, 0, 1, 8, 0, 0, 0, 1, 5, 5, 5, 5, 5, 5, 5, 5, 5] 6
      (by decide)⟩

/-- Claim C3, counterexample.  For the payload `00 00 00 01 09 ... 09` (a
single 10-byte NAL unit, boundary set `S = {0}`) and `max_payload = 4`, the
chunker emits the range `(4, 8)` — a chunk of size `4 ≤ max_payload` that
begins at offset 4, which is in neither `S` nor `{0}`: continuation slices of
an oversized unit break the claimed alignment. -/
theorem C3_claim_counterexample :
    (4, 8) ∈ create_nal_aware_chunksR [0, 0, 0, 1, 9, 9, 9, 9, 9, 9] 4 ∧
      slice [0, 0, 0, 1, 9, 9, 9, 9, 9, 9] 4 8 ∈
        create_nal_aware_chunks [0, 0, 0, 1, 9, 9, 9, 9, 9, 9] 4 ∧
      (slice [0, 0, 0, 1, 9, 9, 9, 9, 9, 9] 4 8).length ≤ 4 ∧
      (4 : Nat) ∉ (0 :: find_nal_boundaries [0, 0, 0, 1, 9, 9, 9, 9, 9, 9]) := by
  decide

/-- Claim C3, amended: for a positive `max_payload`, every chunk the chunker
emits begins at an offset of the form `b + k·max_payload` for some boundary
`b ∈ S ∪ {0}` and some `k ≥ 0`; chunks with `k = 0` start exactly on a
boundary (or at 0), the others are the fixed-size continuation slices of an
oversized unit, or fallback slices when no start code exists. -/
theorem C3_chunk_start_offsets (data : List Nat) (maxPayload : Nat) (_hm : 0 < maxPayload) :
    ∀ r ∈ create_nal_aware_chunksR data maxPayload,
      ∃ b ∈ (0 :: find_nal_boundaries data), ∃ k, r.1 = b + k * maxPayload := by
  intro r hr
  unfold create_nal_aware_chunksR at hr
  by_cases hb : (find_nal_boundaries data).isEmpty
  · simp only [hb, if_pos] at hr
    obtain ⟨k, hk⟩ := splitFixedR_mem_start _ _ _ r hr
    exact ⟨0, List.mem_cons_self 0 _, k, by omega⟩
  · simp only [hb, if_neg, Bool.false_eq_true, not_false_iff] at hr
    refine chunkLoopR_starts data.length maxPayload (find_nal_boundaries data)
      (find_nal_boundaries data) 0 (fun b hbmem => ⟨hbmem, ?_⟩)
      (findNalLoop_chainOK data data.length 0 (Nat.zero_le _))
      (Or.inl (List.mem_cons_self 0 _)) r hr
    have := findNalLoop_mem_lt data data.length 0 b hbmem
    omega

/-- Witness for `C3_chunk_start_offsets` at the continuation chunk `(4, 8)`
of the counterexample payload. -/
theorem C3_chunk_start_offsets_witness :
    ((0 : Nat) < 4 ∧ (4, 8) ∈ create_nal_aware_chunksR [0, 0, 0, 1, 9, 9, 9, 9, 9, 9] 4) ∧
      ∃ b ∈ (0 :: find_nal_boundaries [0, 0, 0, 1, 9, 9, 9, 9, 9, 9]),
        ∃ k, (4, 8).1 = b + k * 4 :=
  ⟨⟨by decide, by decide⟩,
    C3_chunk_start_offsets [0, 0, 0, 1, 9, 9, 9, 9, 9, 9] 4 (by decide) (4, 8) (by decide)⟩

lemma u32_readback {n : Nat} (h : n < 2 ^ 32) :
    n / 2 ^ 24 % 256 * 2 ^ 24 + n / 2 ^ 16 % 256 * 2 ^ 16 + n / 2 ^ 8 % 256 * 2 ^ 8 +
      n % 256 = n := by
  omega

lemma u64_readback {n : Nat} (h : n < 2 ^ 64) :
    n / 2 ^ 56 % 256 * 2 ^ 56 + n / 2 ^ 48 % 256 * 2 ^ 48 + n / 2 ^ 40 % 256 * 2 ^ 40 +
      n / 2 ^ 32 % 256 * 2 ^ 32 + n / 2 ^ 24 % 256 * 2 ^ 24 + n / 2 ^ 16 % 256 * 2 ^ 16 +
      n / 2 ^ 8 % 256 * 2 ^ 8 + n % 256 = n := by
  omega

/-- Claim C6: parsing the serialization of any wire packet whose payload
length fits in a `u32` (with the `u32`/`u64`/`u8` field bounds the Rust types
guarantee) returns the packet unchanged in every field. -/
theorem C6_packet_roundtrip (p : Packet) (hseq : p.sequence < 2 ^ 32)
    (hts : p.timestamp < 2 ^ 64) (hflags : p.flags < 256)
    (hlen : p.payload.length < 2 ^ 32) :
    Packet.from_bytes p.to_bytes = .ok p := by
  obtain ⟨t, seq, ts, fl, pl⟩ := p
  simp only at hseq hts hflags hlen
  have h32 : seq % 2 ^ 32 = seq := Nat.mod_eq_of_lt hseq
  have h64 : ts % 2 ^ 64 = ts := Nat.mod_eq_of_lt hts
  have h8 : fl % 256 = fl := Nat.mod_eq_of_lt hflags
  have hplen : pl.length % 2 ^ 32 = pl.length := Nat.mod_eq_of_lt hlen
  have homatch : PacketType.ofByte (PacketType.toByte t) = some t := by cases t <;> rfl
  simp only [Packet.to_bytes, u32be, u64be, h32, h64, h8, hplen, List.cons_append,
    List.nil_append, Packet.from_bytes, homatch]
  rw [if_neg (by omega)]
  simp only [Except.ok.injEq, Packet.mk.injEq, List.take_eq_self_iff]
  refine ⟨trivial, by omega, by omega, trivial, by omega⟩

/-- Witness for `C6_packet_roundtrip` on a concrete keyframe video packet. -/
theorem C6_packet_roundtrip_witness :
    ((1 : Nat) < 2 ^ 32 ∧ (2 : Nat) < 2 ^ 64 ∧ (1 : Nat) < 256 ∧
      ([9, 8, 7] : List Nat).length < 2 ^ 32) ∧
      Packet.from_bytes (Packet.to_bytes ⟨.Video, 1, 2, 1, [9, 8, 7]⟩) =
        .ok ⟨.Video, 1, 2, 1, [9, 8, 7]⟩ :=
  ⟨⟨by decide, by decide, by decide, by decide⟩,
    C6_packet_roundtrip ⟨.Video, 1, 2, 1, [9, 8, 7]⟩ (by decide) (by decide) (by decide)
      (by decide)⟩

/-- A contiguous fragment chain as the sender emits it, starting at sequence
`s`: every packet carries exactly `FLAG_FRAGMENT`, except the final one which
carries `FLAG_FRAGMENT ||| FLAG_LAST_FRAGMENT`. -/
def isFragmentChain (s : Nat) : List Packet → Bool
  | [] => false
  | [p] => p.flags == (FLAG_FRAGMENT ||| FLAG_LAST_FRAGMENT) && p.sequence == s
  | p :: q :: rest =>
    p.flags == FLAG_FRAGMENT && p.sequence == s && isFragmentChain (s + 1) (q :: rest)

lemma chain_head_seq {s : Nat} {p : Packet} {rest : List Packet}
    (h : isFragmentChain s (p :: rest) = true) : p.sequence = s := by
  cases rest with
  | nil => simp [isFragmentChain] at h; exact h.2
  | cons q r2 => simp [isFragmentChain] at h; exact h.1.2

lemma chain_head_flag {s : Nat} {p : Packet} {rest : List Packet}
    (h : isFragmentChain s (p :: rest) = true) : p.flags &&& FLAG_FRAGMENT ≠ 0 := by
  cases rest with
  | nil =>
    simp [isFragmentChain] at h
    rw [h.1]
    decide
  | cons q r2 =>
    simp [isFragmentChain] at h
    rw [h.1.1]
    decide

lemma run_chain :
    ∀ (ps : List Packet) (s : Nat) (acc : List (List Nat)),
      isFragmentChain s ps = true → s + ps.length ≤ 2 ^ 32 →
      FragmentBuffer.run ⟨acc, some s⟩ ps =
        (⟨[], none⟩, [(acc ++ ps.map Packet.payload).flatten]) := by
  intro ps
  induction ps with
  | nil => intro s acc h _; simp [isFragmentChain] at h
  | cons p rest ih =>
    intro s acc h hb
    cases rest with
    | nil =>
      simp only [isFragmentChain, Bool.and_eq_true, beq_iff_eq] at h
      obtain ⟨hfl, hseq⟩ := h
      simp [FragmentBuffer.run, FragmentBuffer.add_fragment, hfl, hseq,
        FLAG_FRAGMENT, FLAG_LAST_FRAGMENT]
    | cons q r2 =>
      simp only [isFragmentChain, Bool.and_eq_true, beq_iff_eq] at h
      obtain ⟨⟨hfl, hseq⟩, hchain⟩ := h
      have hslt : s + 1 < 2 ^ 32 := by
        simp only [List.length_cons] at hb
        omega
      have hstep : FragmentBuffer.add_fragment ⟨acc, some s⟩ p =
          (⟨acc ++ [p.payload], some (s + 1)⟩, none) := by
        simp only [FragmentBuffer.add_fragment, hfl, hseq, FLAG_FRAGMENT, FLAG_LAST_FRAGMENT]
        norm_num
        rw [Nat.mod_eq_of_lt (show s + 1 < 4294967296 by omega)]
        simp
        decide
      have hih := ih (s + 1) (acc ++ [p.payload]) hchain
        (by simp only [List.length_cons] at hb ⊢; omega)
      show (FragmentBuffer.run ⟨acc, some s⟩ (p :: q :: r2)) =
        ({ fragments := [], expected_sequence := none },
          [(acc ++ List.map Packet.payload (p :: q :: r2)).flatten])
      rw [FragmentBuffer.run]
      simp only [hstep, hih]
      simp

lemma add_fragment_none_start (junk : List (List Nat)) (p : Packet)
    (h : p.flags &&& FLAG_FRAGMENT ≠ 0) :
    FragmentBuffer.add_fragment ⟨junk, none⟩ p =
      FragmentBuffer.add_fragment ⟨[], some p.sequence⟩ p := by
  simp [FragmentBuffer.add_fragment, h]

lemma run_none (junk : List (List Nat)) (ps : List Packet) (s : Nat)
    (hchain : isFragmentChain s ps = true) (hb : s + ps.length ≤ 2 ^ 32) :
    FragmentBuffer.run ⟨junk, none⟩ ps =
      (⟨[], none⟩, [(ps.map Packet.payload).flatten]) := by
  cases ps with
  | nil => simp [isFragmentChain] at hchain
  | cons p rest =>
    have hseq : p.sequence = s := chain_head_seq hchain
    have hfl : p.flags &&& FLAG_FRAGMENT ≠ 0 := chain_head_flag hchain
    have hstep : FragmentBuffer.add_fragment ⟨junk, none⟩ p =
        FragmentBuffer.add_fragment ⟨[], some s⟩ p := by
      rw [add_fragment_none_start junk p hfl, hseq]
    have hrc := run_chain (p :: rest) s [] hchain hb
    rw [FragmentBuffer.run] at hrc ⊢
    simp only [hstep]
    simpa using hrc

/-- Claim C9: with an empty chain, any `FRAGMENT` packet is accepted as the
start of a new chain regardless of its position in the original frame.  If
the first fragment `f0` of a chain is lost and the remaining fragments `ps`
arrive in order through the last one, the buffer yields exactly one frame —
the concatenation of only the received fragments — which differs from the
full frame whenever `f0`'s payload was non-empty, instead of yielding
nothing. -/
theorem C9_truncated_frame_on_lost_first_fragment (f0 : Packet) (ps : List Packet) (s : Nat)
    (hchain : isFragmentChain s (f0 :: ps) = true) (hne : ps ≠ [])
    (hb : s + (f0 :: ps).length ≤ 2 ^ 32) (hpay : f0.payload ≠ []) :
    FragmentBuffer.run FragmentBuffer.mkNew ps =
        (⟨[], none⟩, [(ps.map Packet.payload).flatten]) ∧
      (ps.map Packet.payload).flatten ≠ ((f0 :: ps).map Packet.payload).flatten := by
  constructor
  · cases ps with
    | nil => exact absurd rfl hne
    | cons q r2 =>
      have hchain2 : isFragmentChain (s + 1) (q :: r2) = true := by
        simp only [isFragmentChain, Bool.and_eq_true, beq_iff_eq] at hchain
        exact hchain.2
      exact run_none [] (q :: r2) (s + 1) hchain2
        (by simp only [List.length_cons] at hb ⊢; omega)
  · intro h
    have hexp : ((f0 :: ps).map Packet.payload).flatten =
        f0.payload ++ (ps.map Packet.payload).flatten := by simp
    rw [hexp] at h
    have hl := congrArg List.length h
    simp only [List.length_append] at hl
    have : f0.payload.length = 0 := by omega
    exact hpay (List.length_eq_zero.mp this)

/-- Witness for `C9_truncated_frame_on_lost_first_fragment`: a three-fragment
chain at sequences 5, 6, 7 whose first fragment is lost yields the truncated
frame `[2, 3, 4]`. -/
theorem C9_truncated_frame_witness :
    (isFragmentChain 5 [⟨.Video, 5, 0, 2, [1]⟩, ⟨.Video, 6, 0, 2, [2, 3]⟩,
        ⟨.Video, 7, 0, 6, [4]⟩] = true ∧
      ([⟨.Video, 6, 0, 2, [2, 3]⟩, ⟨.Video, 7, 0, 6, [4]⟩] : List Packet) ≠ [] ∧
      5 + ([(⟨.Video, 5, 0, 2, [1]⟩ : Packet), ⟨.Video, 6, 0, 2, [2, 3]⟩,
        ⟨.Video, 7, 0, 6, [4]⟩] : List Packet).length ≤ 2 ^ 32 ∧
      (⟨.Video, 5, 0, 2, [1]⟩ : Packet).payload ≠ []) ∧
      FragmentBuffer.run FragmentBuffer.mkNew
          [⟨.Video, 6, 0, 2, [2, 3]⟩, ⟨.Video, 7, 0, 6, [4]⟩] =
        (⟨[], none⟩, [[2, 3, 4]]) :=
  ⟨⟨by decide, by decide, by decide, by decide⟩,
    (C9_truncated_frame_on_lost_first_fragment ⟨.Video, 5, 0, 2, [1]⟩
      [⟨.Video, 6, 0, 2, [2, 3]⟩, ⟨.Video, 7, 0, 6, [4]⟩] 5
      (by decide) (by decide) (by decide) (by decide)).1⟩

end Kodomo
